import Mathlib

/-!
Verification of the omni e-commerce synchronization engine against its
natural-language specification.  The Python source under `src/backend/` is
shallowly embedded: instants are integer unix seconds, stateful loops become
explicit state passing or fuel-indexed recursion, and fallible operations
return `Option`/`Except`.
-/

namespace Omni

/-! ## Windowed wallet fetch: date chunking
Embeds `ShopeeAPIClient._get_wallet_transactions_chunked`
(`src/backend/api_clients.py`).  The Python loop walks `current_start` over
datetimes; we work in unix seconds.  Each window is
`[start, min (start + 14 days) last]` and the next window starts one second
after the previous window's end.  The loop is embedded with a fuel counter;
the wrapper supplies fuel sufficient for the whole span, so the wrapper's
value coincides with the Python loop's. -/

/-- 14 days in seconds: the `timedelta(days=14)` added to a window start. -/
def windowLen : Nat := 14 * 86400

/-- The stride between successive window starts: window end is
`start + windowLen` (when not clipped) and the next start is one second
later. -/
def winStride : Nat := windowLen + 1

/-- Fuel-indexed embedding of the `while current_start <= last_day` loop of
`_get_wallet_transactions_chunked`: emit `(current_start, current_end)` with
`current_end = min (current_start + 14 days) last_day`, then continue from
`current_end + 1`. -/
def chunkWindowsAux : Nat → Nat → Nat → List (Nat × Nat)
  | 0, _, _ => []
  | fuel + 1, start, last =>
    if start ≤ last then
      (start, min (start + windowLen) last) ::
        chunkWindowsAux fuel (min (start + windowLen) last + 1) last
    else []

/-- The windows visited by `_get_wallet_transactions_chunked` for the
inclusive interval `[start, last]` (unix seconds).  The supplied fuel
`(last + 1 - start) / winStride + 1` bounds the number of loop iterations. -/
def chunkWindows (start last : Nat) : List (Nat × Nat) :=
  chunkWindowsAux ((last + 1 - start) / winStride + 1) start last

/-! ## Rate-limited sink writer
Embeds `GSheetManager` (`src/backend/sheet_manager.py`): the retry state of
`update_status` (`current_account_index`, `retry_count`), the failure-handler
transition including `_switch_account`, and the `_rate_limit` backoff delay
`min(request_delay * 2 ** retry_count, max_delay)`. -/

/-- The mutable retry state of `GSheetManager`: `current_account_index` and
`retry_count`. -/
structure RateState where
  idx : Nat
  retry : Nat
deriving DecidableEq, Repr

/-- One pass through the `except` branch of `GSheetManager.update_status`
after a failed attempt.  `numCreds` is `len(self.credentials_files)` and
`isQuota` whether the error message matched the quota/"exceeded" signature.
When more than one credential is configured, the counter has reached 2 and
the failure is quota-type, `_switch_account` advances the index modulo the
credential list and resets the counter; otherwise the writer sleeps and
increments the counter. -/
def failStep (numCreds : Nat) (isQuota : Bool) (s : RateState) : RateState :=
  if 1 < numCreds ∧ 2 ≤ s.retry ∧ isQuota = true then
    { idx := (s.idx + 1) % numCreds, retry := 0 }
  else
    { idx := s.idx, retry := s.retry + 1 }

/-- `self.request_delay = 1.5` seconds. -/
def requestDelay : ℚ := 3 / 2

/-- `self.max_delay = 60` seconds. -/
def maxDelay : ℚ := 60

/-- The `dynamic_delay` computed by `GSheetManager._rate_limit`:
`min(self.request_delay * (2 ** self.retry_count), self.max_delay)`. -/
def backoffDelay (retryCount : Nat) : ℚ :=
  min (requestDelay * 2 ^ retryCount) maxDelay

/-- The sleep performed by `_rate_limit` when the time elapsed since the last
request is below the dynamic delay. -/
def rateLimitSleep (elapsed : ℚ) (retryCount : Nat) : ℚ :=
  if elapsed < backoffDelay retryCount then backoffDelay retryCount - elapsed
  else 0

/-! ## Order-list time range
Embeds `BaseOrderManager._get_time_range` (`src/backend/order_managers.py`):
`days = min(days, self.MAX_DAYS)`, `time_to = now`,
`time_from = time_to - 86400 * days`. -/

/-- `BaseOrderManager.MAX_DAYS`. -/
def MAX_DAYS : Int := 15

/-- `BaseOrderManager._get_time_range`, with `now` passed explicitly in
place of `time.time()`. -/
def getTimeRange (now days : Int) : Int × Int :=
  (now - 86400 * min days MAX_DAYS, now)

/-! ## Shopee token lifecycle
Embeds `ShopeeConfigManager.is_token_expired` /
`is_refresh_token_expired` (`src/backend/config_managers.py`) and the
pre-network control flow of `ShopeeAPIClient.make_request`
(`src/backend/api_clients.py`).  Instants are unix seconds; Python's falsy
checks on tokens (`not self.access_token`) become equality with the empty
string, matching the empty-string initialisation of the config.
`partner_id` and `shop_id` are carried as their string renderings, which is
how they enter the signature base string. -/

/-- The Shopee credential fields used by the token lifecycle and the
request signer. -/
structure ShopeeConfig where
  partner_id : String
  partner_key : String
  shop_id : String
  access_token : String
  refresh_token : String
  token_expiry : Option Int
  refresh_token_expiry : Option Int
deriving DecidableEq, Repr

/-- `ShopeeConfigManager.is_token_expired`: true when the expiry was never
set, the access token is empty, or `now` is past the expiry. -/
def is_token_expired (cfg : ShopeeConfig) (now : Int) : Bool :=
  if cfg.token_expiry = none ∨ cfg.access_token = "" then true
  else decide (cfg.token_expiry.getD 0 < now)

/-- `ShopeeConfigManager.is_refresh_token_expired`: true when the refresh
expiry was never set, the refresh token is empty, or `now` is past it. -/
def is_refresh_token_expired (cfg : ShopeeConfig) (now : Int) : Bool :=
  if cfg.refresh_token_expiry = none ∨ cfg.refresh_token = "" then true
  else decide (cfg.refresh_token_expiry.getD 0 < now)

/-- The outcome of the token check at the top of
`ShopeeAPIClient.make_request`: raise the re-authentication error, refresh
first and then send, or send directly. -/
inductive RequestAction where
  | reauthError
  | refreshThenSend
  | send
deriving DecidableEq, Repr

/-- `ShopeeAPIClient.auth_endpoints`: the two bootstrap endpoints exempted
from the token check and signed without the access-token/shop-id extra. -/
def authEndpoints : List String :=
  ["/api/v2/auth/token/get", "/api/v2/auth/access_token/get"]

/-- The pre-network decision of `ShopeeAPIClient.make_request`: bootstrap
endpoints skip the token check; otherwise an expired access token triggers a
refresh when the refresh token is still valid and raises
"Both tokens expired. Please re-authenticate." when it is not. -/
def makeRequestDecision (cfg : ShopeeConfig) (now : Int) (endpoint : String) :
    RequestAction :=
  if endpoint ∈ authEndpoints then .send
  else if is_token_expired cfg now then
    if is_refresh_token_expired cfg now then .reauthError
    else .refreshThenSend
  else .send

/-- Number of HTTP requests initiated on each path of `make_request`:
the re-authentication error is raised before any network traffic. -/
def httpRequestCount : RequestAction → Nat
  | .reauthError => 0
  | .refreshThenSend => 2
  | .send => 1

/-! ## Request signer (Variant A)
Embeds `ShopeeAPIClient._generate_signature` and the `extra_string`
computation of `make_request` (`src/backend/api_clients.py`).  The
HMAC-SHA256 digest itself is Python library code outside the repository and
is abstracted as a byte-list-valued function; the hex rendering of
`hexdigest()` is modelled from the spec ("Output signature is lowercase
hex"), which matches Python's definition of `hexdigest`. -/

/-- A lowercase hexadecimal digit: `0`-`9` then `a`-`f`. -/
def hexChar (n : Nat) : Char :=
  if n < 10 then Char.ofNat (48 + n) else Char.ofNat (87 + n)

/-- The two lowercase hex digits of one byte. -/
def byteToHex (b : Nat) : List Char := [hexChar (b / 16 % 16), hexChar (b % 16)]

/-- Modelled from the spec: Python's `hexdigest()` renders a digest as
lowercase hexadecimal, two digits per byte. -/
def hexDigest (bytes : List Nat) : String :=
  String.mk (bytes.map byteToHex).flatten

/-- `ShopeeAPIClient._generate_signature`: the signature is the lowercase
hex rendering of the digest, keyed by `partner_key`, of the base string
`f"{partner_id}{endpoint}{timestamp}{extra_string}"`.  `digest` abstracts
`hmac.new(key, base, sha256).digest()`. -/
def generateSignature (digest : String → String → List Nat)
    (cfg : ShopeeConfig) (endpoint : String) (timestamp : Nat)
    (extra : String) : String :=
  hexDigest (digest cfg.partner_key
    (cfg.partner_id ++ endpoint ++ toString timestamp ++ extra))

/-- The `extra_string` computed by `make_request`: empty for the two
bootstrap auth endpoints, `f"{access_token}{shop_id}"` otherwise. -/
def extraString (cfg : ShopeeConfig) (endpoint : String) : String :=
  if endpoint ∈ authEndpoints then "" else cfg.access_token ++ cfg.shop_id

/-- The signature `make_request` attaches to a request on `endpoint`. -/
def makeRequestSignature (digest : String → String → List Nat)
    (cfg : ShopeeConfig) (endpoint : String) (timestamp : Nat) : String :=
  generateSignature digest cfg endpoint timestamp (extraString cfg endpoint)

/-- A character is a lowercase hexadecimal digit: a decimal digit or one of
the lowercase letters from `a` to `f`. -/
def IsLowerHexDigit (c : Char) : Prop :=
  ('0' ≤ c ∧ c ≤ '9') ∨ ('a' ≤ c ∧ c ≤ 'f')

instance (c : Char) : Decidable (IsLowerHexDigit c) := by
  unfold IsLowerHexDigit
  infer_instance

/-! ## Worksheet-name sanitization
Embeds `clean_sheet_name` inside `GoogleSheetsManager.upload_to_sheet`
(`src/backend/google_sheets_manager.py`) and the sequence of worksheet
operations that function performs with the cleaned name. -/

/-- The characters `clean_sheet_name` removes. -/
def invalidSheetChars : List Char := [':', '/', '?', '*', '[', ']']

/-- Python `str.strip()`: drop whitespace from both ends. -/
def stripChars (l : List Char) : List Char :=
  ((l.dropWhile Char.isWhitespace).reverse.dropWhile Char.isWhitespace).reverse

/-- The sanitized name before truncation: every invalid character removed
(the successive single-character `str.replace` calls collapse to one
filter), then surrounding whitespace stripped. -/
def sanitizedCore (name : String) : List Char :=
  stripChars (name.data.filter (fun c => !invalidSheetChars.contains c))

/-- `clean_sheet_name`: remove the invalid characters, strip surrounding
whitespace, then truncate to at most 31 characters. -/
def cleanSheetName (name : String) : String :=
  String.mk ((sanitizedCore name).take 31)

/-- A worksheet operation of `upload_to_sheet`, carrying the worksheet name
it uses. -/
inductive SheetOp where
  | lookup (name : String)
  | create (name : String)
  | clearValues (name : String)
  | writeValues (name : String)
deriving DecidableEq, Repr

/-- The worksheet name an operation uses. -/
def SheetOp.opName : SheetOp → String
  | .lookup n => n
  | .create n => n
  | .clearValues n => n
  | .writeValues n => n

/-- The worksheet operations `upload_to_sheet` issues, in order, after
sanitizing the requested name: title lookup, then creation when the
worksheet is missing or a values-clear when it exists, then the value
write.  Every operation uses the cleaned name. -/
def uploadToSheetOps (sheetExists : Bool) (sheetName : String) :
    List SheetOp :=
  if sheetExists then
    [.lookup (cleanSheetName sheetName),
      .clearValues (cleanSheetName sheetName),
      .writeValues (cleanSheetName sheetName)]
  else
    [.lookup (cleanSheetName sheetName),
      .create (cleanSheetName sheetName),
      .writeValues (cleanSheetName sheetName)]

/-! ## Wallet transactions and deduplication
Embeds `_get_transaction_key` and the cross-chunk deduplication loop of
`_get_wallet_transactions_chunked` (`src/backend/api_clients.py`), plus the
`None`-vs-data result shape of `get_wallet_transactions`.  A chunk result is
the transaction list a window produced (`[]` standing for the falsy
`None`/empty cases the code skips). -/

/-- The fields of a wallet transaction that enter the dedup key. -/
structure Transaction where
  create_time : Nat
  order_sn : String
  amount : Int
  transaction_type : Nat
  description : List Char
deriving DecidableEq, Repr

/-- The composite dedup key type. -/
abbrev TxKey := Nat × String × Int × Nat × List Char

/-- `ShopeeAPIClient._get_transaction_key`: create time, order serial,
amount, transaction type, and the description truncated to 100
characters. -/
def txKey (t : Transaction) : TxKey :=
  (t.create_time, t.order_sn, t.amount, t.transaction_type,
    t.description.take 100)

/-- One pass of the per-chunk dedup loop of
`_get_wallet_transactions_chunked`: walk the chunk's transactions in order,
keeping a transaction and recording its key when the key is not yet in the
`processed_transactions` set.  Returns the grown set and the kept
transactions. -/
def dedupPass (seen : List TxKey) :
    List Transaction → List TxKey × List Transaction
  | [] => (seen, [])
  | t :: rest =>
    if txKey t ∈ seen then dedupPass seen rest
    else
      ((dedupPass (txKey t :: seen) rest).1,
        t :: (dedupPass (txKey t :: seen) rest).2)

/-- The whole-call accumulation of `_get_wallet_transactions_chunked`: the
`processed_transactions` set is threaded through every chunk and the kept
transactions are appended to `all_transactions` in order. -/
def chunkedCollect : List TxKey → List (List Transaction) → List Transaction
  | _, [] => []
  | seen, c :: rest =>
    (dedupPass seen c).2 ++ chunkedCollect (dedupPass seen c).1 rest

/-- The return shape of `_get_wallet_transactions_chunked`: the collected
transactions when any were found, `None` otherwise. -/
def getWalletTransactionsChunked (chunks : List (List Transaction)) :
    Option (List Transaction) :=
  if chunkedCollect [] chunks = [] then none
  else some (chunkedCollect [] chunks)

/-- `ShopeeAPIClient.get_wallet_transactions`: any exception during the
fetch is caught and turned into `None`; otherwise the chunked result is
returned as is. -/
def getWalletTransactions
    (outcome : Except String (List (List Transaction))) :
    Option (List Transaction) :=
  match outcome with
  | .error _ => none
  | .ok chunks => getWalletTransactionsChunked chunks

/-! ## Cursor pagination
Embeds `BaseOrderManager._fetch_paginated_data`
(`src/backend/order_managers.py`).  The server is a stream of responses
(the `n`-th response answers the `n`-th request); the `while True` loop is
fuel-indexed.  The loop breaks when a page yields no records, and otherwise
continues only when the server signals more pages and returns a truthy
continuation cursor. -/

/-- One server response: the extracted `data_key` list, `next_cursor`, and
the `more` flag. -/
structure CursorPage where
  records : List Transaction
  next_cursor : Option String
  more : Bool
deriving DecidableEq, Repr

/-- Python truthiness of the `next_cursor` value: absent (`None`) and the
empty string are both falsy. -/
def cursorTruthy : Option String → Bool
  | none => false
  | some s => decide (s ≠ "")

/-- A page on which the loop stops: zero records, no-more-pages signal, or
no truthy continuation cursor. -/
def pageStops (p : CursorPage) : Bool :=
  p.records.isEmpty || !p.more || !cursorTruthy p.next_cursor

/-- The records accumulated by `_fetch_paginated_data` when the `n`-th
request is answered by `pages n`, with at most `fuel` loop iterations. -/
def fetchLoop (pages : Nat → CursorPage) : Nat → Nat → List Transaction
  | _, 0 => []
  | n, fuel + 1 =>
    if (pages n).records.isEmpty then []
    else
      (pages n).records ++
        (if (pages n).more = true ∧ cursorTruthy (pages n).next_cursor = true
          then fetchLoop pages (n + 1) fuel
          else [])

/-- The number of requests `_fetch_paginated_data` issues (one per loop
iteration, counted before the stop checks). -/
def fetchRequests (pages : Nat → CursorPage) : Nat → Nat → Nat
  | _, 0 => 0
  | n, fuel + 1 =>
    1 + (if (pages n).records.isEmpty = false ∧ (pages n).more = true
            ∧ cursorTruthy (pages n).next_cursor = true
          then fetchRequests pages (n + 1) fuel
          else 0)

/-- A concrete transaction used in witnesses and counterexamples. -/
def txA : Transaction :=
  { create_time := 0, order_sn := "A", amount := 0, transaction_type := 0,
    description := [] }

/-- A stream whose second page is empty yet still carries a continuation
cursor and a `more` signal. -/
def pagesStopEx : Nat → CursorPage := fun n =>
  if n = 0 then { records := [txA], next_cursor := some "c", more := true }
  else { records := [], next_cursor := some "c", more := true }

/-- A stream returning the same record on two successive pages. -/
def pagesDupEx : Nat → CursorPage := fun n =>
  if n = 0 then { records := [txA], next_cursor := some "c", more := true }
  else { records := [txA], next_cursor := none, more := false }

/-- An empty span produces no windows, with any fuel. -/
theorem chunkWindowsAux_of_lt (fuel start last : Nat) (h : last < start) :
    chunkWindowsAux fuel start last = [] := by
  cases fuel with
  | zero => rfl
  | succ n =>
    simp only [chunkWindowsAux, if_neg (by omega : ¬ start ≤ last)]

/-- Every window start produced lies at or after the interval start. -/
theorem chunkWindowsAux_fst_ge (fuel : Nat) :
    ∀ start last w, w ∈ chunkWindowsAux fuel start last → start ≤ w.1 := by
  induction fuel with
  | zero => intro start last w h; simp [chunkWindowsAux] at h
  | succ n ih =>
    intro start last w h
    by_cases hsl : start ≤ last
    · simp only [chunkWindowsAux, if_pos hsl, List.mem_cons] at h
      rcases h with h | h
      · subst h; exact le_refl _
      · have := ih _ _ _ h
        omega
    · simp [chunkWindowsAux, if_neg hsl] at h

/-- Every window produced has the shape `(s, min (s + 14 days) last)` with
`s ≤ last`. -/
theorem chunkWindowsAux_shape (fuel : Nat) :
    ∀ start last w, w ∈ chunkWindowsAux fuel start last →
      w.1 ≤ last ∧ w.2 = min (w.1 + windowLen) last := by
  induction fuel with
  | zero => intro start last w h; simp [chunkWindowsAux] at h
  | succ n ih =>
    intro start last w h
    by_cases hsl : start ≤ last
    · simp only [chunkWindowsAux, if_pos hsl, List.mem_cons] at h
      rcases h with h | h
      · subst h; exact ⟨hsl, rfl⟩
      · exact ih _ _ _ h
    · simp [chunkWindowsAux, if_neg hsl] at h

/-- Coverage: given enough fuel, a second `t` lies in `[start, last]` iff it
lies in one of the produced windows. -/
theorem chunkWindowsAux_cover (fuel : Nat) :
    ∀ start last, last + 1 - start ≤ fuel * winStride →
      ∀ t, (start ≤ t ∧ t ≤ last) ↔
        ∃ w ∈ chunkWindowsAux fuel start last, w.1 ≤ t ∧ t ≤ w.2 := by
  induction fuel with
  | zero =>
    intro start last hf t
    simp only [Nat.zero_mul] at hf
    simp only [chunkWindowsAux, List.not_mem_nil, false_and, exists_false,
      iff_false, not_and]
    omega
  | succ n ih =>
    intro start last hf t
    simp only [winStride, windowLen] at hf
    by_cases hsl : start ≤ last
    · simp only [chunkWindowsAux, if_pos hsl, List.mem_cons]
      constructor
      · rintro ⟨h1, h2⟩
        by_cases hte : t ≤ min (start + windowLen) last
        · exact ⟨(start, min (start + windowLen) last), Or.inl rfl, h1, hte⟩
        · have hf' : last + 1 - (min (start + windowLen) last + 1) ≤
              n * winStride := by
            simp only [winStride, windowLen]
            simp only [windowLen] at hte
            omega
          have hm := (ih (min (start + windowLen) last + 1) last hf' t).mp
            (by simp only [windowLen] at hte ⊢; omega)
          obtain ⟨w, hw, hw2⟩ := hm
          exact ⟨w, Or.inr hw, hw2⟩
      · rintro ⟨w, hw | hw, hw1, hw2⟩
        · subst hw
          simp only at hw1 hw2
          omega
        · have hfst := chunkWindowsAux_fst_ge n _ _ _ hw
          have hshape := chunkWindowsAux_shape n _ _ _ hw
          constructor <;> omega
    · simp only [chunkWindowsAux, if_neg hsl, List.not_mem_nil, false_and,
        exists_false, iff_false, not_and]
      omega

/-- The produced windows are pairwise non-overlapping: every earlier window
ends strictly before every later window starts. -/
theorem chunkWindowsAux_pairwise (fuel : Nat) :
    ∀ start last,
      List.Pairwise (fun a b : Nat × Nat => a.2 < b.1)
        (chunkWindowsAux fuel start last) := by
  induction fuel with
  | zero => intro start last; simp [chunkWindowsAux]
  | succ n ih =>
    intro start last
    by_cases hsl : start ≤ last
    · simp only [chunkWindowsAux, if_pos hsl]
      refine List.Pairwise.cons ?_ (ih _ _)
      intro b hb
      have := chunkWindowsAux_fst_ge n _ _ _ hb
      simp only
      omega
    · simp [chunkWindowsAux, if_neg hsl]

/-- Each successive window starts exactly one second after the previous
window's end. -/
theorem chunkWindowsAux_chain (fuel : Nat) :
    ∀ start last,
      List.Chain' (fun a b : Nat × Nat => b.1 = a.2 + 1)
        (chunkWindowsAux fuel start last) := by
  induction fuel with
  | zero => intro start last; simp [chunkWindowsAux]
  | succ n ih =>
    intro start last
    by_cases hsl : start ≤ last
    · simp only [chunkWindowsAux, if_pos hsl]
      rw [List.chain'_cons']
      refine ⟨?_, ih _ _⟩
      intro b hb
      cases n with
      | zero => simp [chunkWindowsAux] at hb
      | succ m =>
        by_cases h2 : min (start + windowLen) last + 1 ≤ last
        · simp only [chunkWindowsAux, if_pos h2, List.head?_cons,
            Option.mem_def, Option.some.injEq] at hb
          subst hb
          rfl
        · simp [chunkWindowsAux, if_neg h2] at hb
    · simp [chunkWindowsAux, if_neg hsl]

/-- Window count: given enough fuel, the loop produces exactly
`⌈span / winStride⌉` windows, where `span = last + 1 - start` is the number
of seconds in the inclusive interval. -/
theorem chunkWindowsAux_length (fuel : Nat) :
    ∀ start last, last + 1 - start ≤ fuel * winStride →
      (chunkWindowsAux fuel start last).length =
        (last + 1 - start + winStride - 1) / winStride := by
  induction fuel with
  | zero =>
    intro s l hf
    simp only [Nat.zero_mul] at hf
    simp only [chunkWindowsAux, List.length_nil, winStride, windowLen]
    omega
  | succ n ih =>
    intro s l hf
    simp only [winStride, windowLen] at hf
    by_cases hsl : s ≤ l
    · simp only [chunkWindowsAux, if_pos hsl, List.length_cons]
      rw [ih]
      · simp only [winStride, windowLen]
        omega
      · simp only [winStride, windowLen]
        omega
    · simp only [chunkWindowsAux, if_neg hsl, List.length_nil, winStride,
        windowLen]
      omega

/-- The wrapper's fuel suffices for the whole span. -/
theorem chunkWindows_fuel (start last : Nat) :
    last + 1 - start ≤ ((last + 1 - start) / winStride + 1) * winStride := by
  simp only [winStride, windowLen]
  omega

/-- C1 counterexample: for a 30-day interval (unix seconds `0` to
`30 * 86400 - 1`, as produced for a 30-day month by
`get_wallet_transactions`), the claim predicts `ceil(30 / 15) = 2` windows,
but `_get_wallet_transactions_chunked` produces 3: the next window starts
one second (not one day) after the previous end, so the stride is
`14 * 86400 + 1` seconds and the window starts drift backwards across
calendar days. -/
theorem c1_count_counterexample :
    ¬ ((chunkWindows 0 (30 * 86400 - 1)).length = 2) := by decide

/-- C1 (amended): for `start ≤ last`, `_get_wallet_transactions_chunked`
partitions the inclusive interval `[start, last]` into consecutive windows
`[w, min (w + 14 days) last]`; each next window starts exactly one second
after the previous window's end, the windows are pairwise non-overlapping,
and their union equals `[start, last]` exactly.  The number of windows is
`⌈(last + 1 - start) / (14 * 86400 + 1)⌉` — for an interval of `N` days this
is `⌈N * 86400 / (14 * 86400 + 1)⌉`, not `⌈N / 15⌉` (a 30-day interval
yields 3 windows, not 2). -/
theorem c1_window_partition (start last : Nat) (h : start ≤ last) :
    (∀ t, (start ≤ t ∧ t ≤ last) ↔
      ∃ w ∈ chunkWindows start last, w.1 ≤ t ∧ t ≤ w.2)
    ∧ List.Pairwise (fun a b : Nat × Nat => a.2 < b.1)
        (chunkWindows start last)
    ∧ List.Chain' (fun a b : Nat × Nat => b.1 = a.2 + 1)
        (chunkWindows start last)
    ∧ (∀ w ∈ chunkWindows start last, w.2 = min (w.1 + windowLen) last)
    ∧ (chunkWindows start last).length =
        (last + 1 - start + winStride - 1) / winStride := by
  refine ⟨?_, ?_, ?_, ?_, ?_⟩
  · exact chunkWindowsAux_cover _ start last (chunkWindows_fuel start last)
  · exact chunkWindowsAux_pairwise _ start last
  · exact chunkWindowsAux_chain _ start last
  · intro w hw
    exact (chunkWindowsAux_shape _ start last w hw).2
  · exact chunkWindowsAux_length _ start last (chunkWindows_fuel start last)

/-- Witness for `c1_window_partition` at the 30-day interval: the window
count matches the ceiling formula concretely (3 windows). -/
theorem c1_window_partition_witness :
    (0 : Nat) ≤ 2591999 ∧
      (chunkWindows 0 2591999).length =
        (2591999 + 1 - 0 + winStride - 1) / winStride :=
  ⟨by decide, (c1_window_partition 0 2591999 (by decide)).2.2.2.2⟩

/-- C3 counterexample: with 2 configured credentials and a fresh retry
state, after exactly 2 consecutive quota-type failures the next attempt
still uses credential index 0, not 1: `update_status` only rotates when a
quota failure is observed with `retry_count >= 2`, which first happens on
the third consecutive failure. -/
theorem c3_rotation_counterexample :
    ¬ ((failStep 2 true
        (failStep 2 true { idx := 0, retry := 0 })).idx = 1) := by decide

/-- C3 (amended): the rotation fires on a quota-type failure observed when
`retry_count` has already reached 2 (i.e. on the third consecutive failure
from a fresh state): it advances `current_account_index` to the next
credential in the configured list modulo its length and resets the
consecutive-failure counter to 0, so with 2 configured credentials the
attempt after the third quota failure uses credential index 1. -/
theorem c3_rotation (numCreds : Nat) (s : RateState)
    (hn : 1 < numCreds) (hr : 2 ≤ s.retry) :
    (failStep numCreds true s).idx = (s.idx + 1) % numCreds
    ∧ (failStep numCreds true s).retry = 0
    ∧ (failStep 2 true (failStep 2 true
        (failStep 2 true { idx := 0, retry := 0 }))) = { idx := 1, retry := 0 } := by
  refine ⟨?_, ?_, by decide⟩ <;> simp [failStep, hn, hr]

/-- Witness for `c3_rotation` at a concrete state with the counter at 2. -/
theorem c3_rotation_witness :
    (failStep 2 true { idx := 0, retry := 2 }).idx = (0 + 1) % 2
    ∧ (failStep 2 true { idx := 0, retry := 2 }).retry = 0 :=
  ⟨(c3_rotation 2 { idx := 0, retry := 2 } (by decide) (by decide)).1,
   (c3_rotation 2 { idx := 0, retry := 2 } (by decide) (by decide)).2.1⟩

/-- C5: the sink writer's backoff delay before each attempt equals
`min(request_delay * 2 ** retry_count, max_delay)` with base 1.5 s and cap
60 s; the delay sequence across repeated generic failures (which increment
`retry_count` by one each time) is non-decreasing, capped at 60, and begins
1.5, 3, 6, 12, 24, 48, 60, 60; and `_rate_limit` sleeps enough that the gap
since the previous request is at least the dynamic delay. -/
theorem c5_backoff (n : Nat) (elapsed : ℚ) :
    backoffDelay n = min (requestDelay * 2 ^ n) maxDelay
    ∧ backoffDelay n ≤ backoffDelay (n + 1)
    ∧ backoffDelay n ≤ maxDelay
    ∧ backoffDelay n ≤ elapsed + rateLimitSleep elapsed n
    ∧ requestDelay = 3 / 2 ∧ maxDelay = 60
    ∧ [backoffDelay 0, backoffDelay 1, backoffDelay 2, backoffDelay 3,
        backoffDelay 4, backoffDelay 5, backoffDelay 6, backoffDelay 7]
      = [3 / 2, 3, 6, 12, 24, 48, 60, 60] := by
  refine ⟨rfl, ?_, min_le_right _ _, ?_, rfl, rfl, ?_⟩
  · apply min_le_min _ le_rfl
    have h2 : (2 : ℚ) ^ n ≤ 2 ^ (n + 1) := by
      apply pow_le_pow_right₀ (by norm_num) (by omega)
    have hb : (0 : ℚ) ≤ requestDelay := by norm_num [requestDelay]
    exact mul_le_mul_of_nonneg_left h2 hb
  · unfold rateLimitSleep
    split
    · linarith
    · rename_i hcond
      push_neg at hcond
      linarith
  · norm_num [backoffDelay, requestDelay, maxDelay, min_def]

/-- C9: for every `days > 15`, `BaseOrderManager._get_time_range` silently
clamps the span to the most recent 15 days: it returns
`(now - 15 * 86400, now)` with no windowing and no error, so the covered
span is exactly 15 days. -/
theorem c9_time_range_clamp (now days : Int) (h : 15 < days) :
    getTimeRange now days = (now - 15 * 86400, now)
    ∧ (getTimeRange now days).2 - (getTimeRange now days).1 = 15 * 86400 := by
  have hm : min days MAX_DAYS = 15 := by
    simp only [MAX_DAYS]
    omega
  refine ⟨?_, ?_⟩ <;> simp [getTimeRange, hm]

/-- Witness for `c9_time_range_clamp` at a 30-day request. -/
theorem c9_time_range_clamp_witness :
    getTimeRange 1700000000 30 = (1700000000 - 15 * 86400, 1700000000) :=
  (c9_time_range_clamp 1700000000 30 (by decide)).1

/-- C4: when the access-token expiry is in the past and the refresh-token
expiry is in the past (or the refresh token is missing), a request to a
non-bootstrap endpoint takes the re-authentication branch of
`make_request`, which raises before any network traffic: zero HTTP calls
are performed, and the raised exception is not retried by `make_request`. -/
theorem c4_reauth_no_network (cfg : ShopeeConfig) (now ta : Int)
    (endpoint : String)
    (hend : endpoint ∉ authEndpoints)
    (hacc : cfg.token_expiry = some ta) (hta : ta < now)
    (href : (∃ tr, cfg.refresh_token_expiry = some tr ∧ tr < now)
      ∨ cfg.refresh_token = "") :
    makeRequestDecision cfg now endpoint = .reauthError
    ∧ httpRequestCount (makeRequestDecision cfg now endpoint) = 0 := by
  have h1 : is_token_expired cfg now = true := by
    simp only [is_token_expired, hacc, Option.getD_some]
    split
    · rfl
    · simpa using hta
  have h2 : is_refresh_token_expired cfg now = true := by
    rcases href with ⟨tr, htr, hlt⟩ | hempty
    · simp only [is_refresh_token_expired, htr, Option.getD_some]
      split
      · rfl
      · simpa using hlt
    · simp [is_refresh_token_expired, hempty]
  have hdec : makeRequestDecision cfg now endpoint = .reauthError := by
    simp [makeRequestDecision, hend, h1, h2]
  exact ⟨hdec, by rw [hdec]; rfl⟩

/-- Witness for `c4_reauth_no_network`: a credential whose two expiries are
both in the past, queried on an order endpoint. -/
theorem c4_reauth_no_network_witness :
    makeRequestDecision
        { partner_id := "1", partner_key := "k", shop_id := "2",
          access_token := "tok", refresh_token := "rtok",
          token_expiry := some 0, refresh_token_expiry := some 0 }
        10 "/api/v2/order/get_order_list" = .reauthError ∧
      httpRequestCount (makeRequestDecision
        { partner_id := "1", partner_key := "k", shop_id := "2",
          access_token := "tok", refresh_token := "rtok",
          token_expiry := some 0, refresh_token_expiry := some 0 }
        10 "/api/v2/order/get_order_list") = 0 :=
  c4_reauth_no_network _ 10 0 _ (by decide) rfl (by decide)
    (Or.inl ⟨0, rfl, by decide⟩)

/-- Each byte renders to lowercase hex digits. -/
theorem byteToHex_mem_lowerHex (b : Nat) :
    ∀ c ∈ byteToHex b, IsLowerHexDigit c := by
  intro c hc
  have h1 : b / 16 % 16 < 16 := Nat.mod_lt _ (by norm_num)
  have h2 : b % 16 < 16 := Nat.mod_lt _ (by norm_num)
  have key : ∀ n < 16, IsLowerHexDigit (hexChar n) := by decide
  simp only [byteToHex, List.mem_cons, List.not_mem_nil, or_false] at hc
  rcases hc with rfl | rfl
  · exact key _ h1
  · exact key _ h2

/-- Every character of a hex digest is a lowercase hex digit. -/
theorem hexDigest_lowercase (bytes : List Nat) :
    ∀ c ∈ (hexDigest bytes).data, IsLowerHexDigit c := by
  intro c hc
  simp only [hexDigest, List.mem_flatten, List.mem_map] at hc
  obtain ⟨l, ⟨b, _, rfl⟩, hcl⟩ := hc
  exact byteToHex_mem_lowerHex b c hcl

/-- C7: for every non-bootstrap endpoint the Shopee request signature is
the lowercase-hex digest, keyed by the partner key, of the concatenation
`partner_id ++ endpoint ++ timestamp ++ access_token ++ shop_id`; for the
two bootstrap auth endpoints the trailing `access_token ++ shop_id` part is
the empty string; every character of the signature is a lowercase hex
digit. -/
theorem c7_signature (digest : String → String → List Nat)
    (cfg : ShopeeConfig) (endpoint : String) (ts : Nat) :
    (endpoint ∉ authEndpoints →
      makeRequestSignature digest cfg endpoint ts
        = hexDigest (digest cfg.partner_key
            (cfg.partner_id ++ endpoint ++ toString ts
              ++ (cfg.access_token ++ cfg.shop_id))))
    ∧ (endpoint ∈ authEndpoints →
      makeRequestSignature digest cfg endpoint ts
        = hexDigest (digest cfg.partner_key
            (cfg.partner_id ++ endpoint ++ toString ts ++ "")))
    ∧ authEndpoints
        = ["/api/v2/auth/token/get", "/api/v2/auth/access_token/get"]
    ∧ ∀ c ∈ (makeRequestSignature digest cfg endpoint ts).data,
        IsLowerHexDigit c := by
  refine ⟨?_, ?_, rfl, hexDigest_lowercase _⟩
  · intro h
    simp [makeRequestSignature, generateSignature, extraString, h]
  · intro h
    simp [makeRequestSignature, generateSignature, extraString, h]

/-- Witness for `c7_signature`: a wallet endpoint is signed over the base
string ending in `access_token ++ shop_id`. -/
theorem c7_signature_witness :
    makeRequestSignature (fun _ _ => [0, 171])
        { partner_id := "12345", partner_key := "k", shop_id := "67890",
          access_token := "acc", refresh_token := "r",
          token_expiry := none, refresh_token_expiry := none }
        "/api/v2/payment/get_wallet_transaction_list" 1700000000
      = hexDigest [0, 171] :=
  (c7_signature (fun _ _ => [0, 171])
    { partner_id := "12345", partner_key := "k", shop_id := "67890",
      access_token := "acc", refresh_token := "r",
      token_expiry := none, refresh_token_expiry := none }
    "/api/v2/payment/get_wallet_transaction_list" 1700000000).1 (by decide)

/-- A head surviving `dropWhile p` falsifies `p`. -/
theorem head_dropWhile_false (p : Char → Bool) :
    ∀ (l : List Char) c, (l.dropWhile p).head? = some c → p c = false := by
  intro l
  induction l with
  | nil => intro c hc; simp [List.dropWhile] at hc
  | cons a t ih =>
    intro c hc
    rw [List.dropWhile_cons] at hc
    by_cases hp : p a
    · rw [if_pos hp] at hc
      exact ih c hc
    · rw [if_neg hp] at hc
      simp only [List.head?_cons, Option.some.injEq] at hc
      subst hc
      simpa using hp

/-- `dropWhile` keeps the last element of the list when its result is
nonempty. -/
theorem getLast_dropWhile_eq (p : Char → Bool) :
    ∀ (l : List Char) c, (l.dropWhile p).getLast? = some c →
      l.getLast? = some c := by
  intro l
  induction l with
  | nil => intro c hc; simp [List.dropWhile] at hc
  | cons a t ih =>
    intro c hc
    rw [List.dropWhile_cons] at hc
    by_cases hp : p a
    · rw [if_pos hp] at hc
      have ht := ih c hc
      exact Option.mem_def.mp
        (List.mem_getLast?_cons (Option.mem_def.mpr ht))
    · rwa [if_neg hp] at hc

/-- The stripped list starts with a non-whitespace character. -/
theorem stripChars_head (l : List Char) :
    ∀ c, (stripChars l).head? = some c → c.isWhitespace = false := by
  intro c hc
  unfold stripChars at hc
  rw [List.head?_reverse] at hc
  have h2 := getLast_dropWhile_eq Char.isWhitespace _ c hc
  rw [List.getLast?_reverse] at h2
  exact head_dropWhile_false Char.isWhitespace _ c h2

/-- The stripped list ends with a non-whitespace character. -/
theorem stripChars_last (l : List Char) :
    ∀ c, (stripChars l).getLast? = some c → c.isWhitespace = false := by
  intro c hc
  unfold stripChars at hc
  rw [List.getLast?_reverse] at hc
  exact head_dropWhile_false Char.isWhitespace _ c hc

/-- Membership in the stripped list implies membership in the original. -/
theorem stripChars_subset (l : List Char) :
    ∀ c ∈ stripChars l, c ∈ l := by
  intro c hc
  unfold stripChars at hc
  rw [List.mem_reverse] at hc
  have h1 := (List.dropWhile_sublist Char.isWhitespace).subset hc
  rw [List.mem_reverse] at h1
  exact (List.dropWhile_sublist Char.isWhitespace).subset h1

/-- C8: `upload_to_sheet` operates on a sanitized worksheet name: the
characters `: / ? * [ ]` are removed, surrounding whitespace is stripped,
and the result is truncated to at most 31 characters; every worksheet
lookup, creation, clear, and write issued by `upload_to_sheet` uses the
sanitized name. -/
theorem c8_sheet_name_sanitized (sheetExists : Bool) (name : String) :
    (cleanSheetName name).length ≤ 31
    ∧ (∀ c ∈ (cleanSheetName name).data, c ∉ invalidSheetChars)
    ∧ (∀ c, (sanitizedCore name).head? = some c → c.isWhitespace = false)
    ∧ (∀ c, (sanitizedCore name).getLast? = some c → c.isWhitespace = false)
    ∧ cleanSheetName name = String.mk ((sanitizedCore name).take 31)
    ∧ ∀ op ∈ uploadToSheetOps sheetExists name,
        SheetOp.opName op = cleanSheetName name := by
  refine ⟨?_, ?_, stripChars_head _, stripChars_last _, rfl, ?_⟩
  · show ((sanitizedCore name).take 31).length ≤ 31
    simp [List.length_take]
  · intro c hc hinv
    have h1 : c ∈ sanitizedCore name :=
      (List.take_sublist 31 _).subset hc
    have h2 := stripChars_subset _ c h1
    rw [List.mem_filter] at h2
    have h3 : c ∉ invalidSheetChars := by
      have := h2.2
      simp only [Bool.not_eq_true'] at this
      simpa using this
    exact h3 hinv
  · intro op hop
    cases sheetExists <;>
      simp only [uploadToSheetOps, Bool.false_eq_true, if_false, if_true,
        List.mem_cons, List.not_mem_nil, or_false] at hop <;>
      rcases hop with rfl | rfl | rfl <;> rfl

/-- Witness for `c8_sheet_name_sanitized` on a name containing invalid
characters and surrounding whitespace. -/
theorem c8_sheet_name_sanitized_witness :
    (cleanSheetName "  My:Sheet/2024?  ").length ≤ 31
    ∧ ('M').isWhitespace = false
    ∧ SheetOp.opName
        (SheetOp.lookup (cleanSheetName "  My:Sheet/2024?  "))
        = cleanSheetName "  My:Sheet/2024?  " :=
  ⟨(c8_sheet_name_sanitized true "  My:Sheet/2024?  ").1,
   (c8_sheet_name_sanitized true "  My:Sheet/2024?  ").2.2.1 'M' (by decide),
   (c8_sheet_name_sanitized true "  My:Sheet/2024?  ").2.2.2.2.2 _
     (by decide)⟩

/-- The per-chunk dedup pass: the returned set is the old set plus the
chunk's keys; the kept transactions carry exactly the chunk keys outside
the old set, each once. -/
theorem dedupPass_spec (txs : List Transaction) :
    ∀ seen : List TxKey,
      (∀ k, k ∈ (dedupPass seen txs).1 ↔ k ∈ seen ∨ k ∈ txs.map txKey)
      ∧ (∀ k, k ∈ (dedupPass seen txs).2.map txKey ↔
          k ∈ txs.map txKey ∧ k ∉ seen)
      ∧ ((dedupPass seen txs).2.map txKey).Nodup := by
  induction txs with
  | nil => intro seen; simp [dedupPass]
  | cons t rest ih =>
    intro seen
    by_cases hmem : txKey t ∈ seen
    · simp only [dedupPass, if_pos hmem]
      obtain ⟨ih1, ih2, ih3⟩ := ih seen
      refine ⟨?_, ?_, ih3⟩
      · intro k
        rw [ih1]
        simp only [List.map_cons, List.mem_cons]
        constructor
        · tauto
        · rintro (h | rfl | h) <;> tauto
      · intro k
        rw [ih2]
        simp only [List.map_cons, List.mem_cons]
        constructor
        · tauto
        · rintro ⟨rfl | h, hn⟩
          · exact absurd hmem hn
          · exact ⟨h, hn⟩
    · simp only [dedupPass, if_neg hmem]
      obtain ⟨ih1, ih2, ih3⟩ := ih (txKey t :: seen)
      refine ⟨?_, ?_, ?_⟩
      · intro k
        rw [ih1]
        simp only [List.map_cons, List.mem_cons]
        tauto
      · intro k
        simp only [List.map_cons, List.mem_cons, ih2]
        constructor
        · rintro (rfl | ⟨h1, h2⟩)
          · exact ⟨Or.inl rfl, hmem⟩
          · exact ⟨Or.inr h1, fun hk => h2 (Or.inr hk)⟩
        · rintro ⟨rfl | h1, h2⟩
          · exact Or.inl rfl
          · by_cases hk : k = txKey t
            · exact Or.inl hk
            · exact Or.inr ⟨h1, by simp [hk, h2]⟩
      · rw [List.map_cons, List.nodup_cons]
        refine ⟨?_, ih3⟩
        intro hks
        have h := (ih2 (txKey t)).mp hks
        exact h.2 (List.mem_cons_self _ _)

/-- The whole-call accumulation: the output's keys are exactly the keys of
the flattened chunks outside the initial set, each appearing once. -/
theorem chunkedCollect_spec (chunks : List (List Transaction)) :
    ∀ seen : List TxKey,
      (∀ k, k ∈ (chunkedCollect seen chunks).map txKey ↔
        k ∈ chunks.flatten.map txKey ∧ k ∉ seen)
      ∧ ((chunkedCollect seen chunks).map txKey).Nodup := by
  induction chunks with
  | nil => intro seen; simp [chunkedCollect]
  | cons c rest ih =>
    intro seen
    obtain ⟨d1, d2, d3⟩ := dedupPass_spec c seen
    obtain ⟨i1, i2⟩ := ih (dedupPass seen c).1
    constructor
    · intro k
      have hsplit : k ∈ (c :: rest).flatten.map txKey ↔
          k ∈ c.map txKey ∨ k ∈ rest.flatten.map txKey := by
        rw [List.flatten_cons, List.map_append, List.mem_append]
      have hout : k ∈ (chunkedCollect seen (c :: rest)).map txKey ↔
          k ∈ (dedupPass seen c).2.map txKey ∨
            k ∈ (chunkedCollect (dedupPass seen c).1 rest).map txKey := by
        simp only [chunkedCollect, List.map_append, List.mem_append]
      rw [hout, hsplit, d2, i1, d1]
      constructor
      · rintro (⟨ha, hb⟩ | ⟨ha, hb⟩)
        · exact ⟨Or.inl ha, hb⟩
        · exact ⟨Or.inr ha, fun hk => hb (Or.inl hk)⟩
      · rintro ⟨ha | ha, hb⟩
        · exact Or.inl ⟨ha, hb⟩
        · by_cases hc : k ∈ c.map txKey
          · exact Or.inl ⟨hc, hb⟩
          · exact Or.inr ⟨ha, fun hk => hk.elim hb hc⟩
    · simp only [chunkedCollect, List.map_append]
      rw [List.nodup_append]
      refine ⟨d3, i2, ?_⟩
      intro k hk hk2
      have h1 := (d2 k).mp hk
      have h2 := (i1 k).mp hk2
      exact h2.2 ((d1 k).mpr (Or.inr h1.1))

/-- When every chunk is empty, nothing is collected. -/
theorem chunkedCollect_all_empty (chunks : List (List Transaction)) :
    ∀ seen, (∀ c ∈ chunks, c = []) → chunkedCollect seen chunks = [] := by
  induction chunks with
  | nil => intro seen _; rfl
  | cons c rest ih =>
    intro seen hall
    have hc : c = [] := hall c (List.mem_cons_self _ _)
    subst hc
    simp only [chunkedCollect, dedupPass, List.nil_append]
    exact ih seen fun c hc => hall c (List.mem_cons_of_mem _ hc)

/-- C2 counterexample: a cursor-paginated fetch through
`_fetch_paginated_data` over two pages that both return the same record
emits it twice — the cursor fetch keeps no DedupKey set, so the output size
(2) differs from the number of distinct DedupKeys across all pages (1).
Fuel 2 already reaches the loop's own termination (page 1 sets
`more = False`), as the stability conjunct shows. -/
theorem c2_dedup_counterexample :
    (fetchLoop pagesDupEx 0 2).length = 2
    ∧ ((fetchLoop pagesDupEx 0 2).map txKey).toFinset.card = 1
    ∧ (fetchLoop pagesDupEx 0 2).length ≠
        ((fetchLoop pagesDupEx 0 2).map txKey).toFinset.card
    ∧ fetchLoop pagesDupEx 0 10 = fetchLoop pagesDupEx 0 2 := by
  refine ⟨by decide, by decide, by decide, by decide⟩

/-- C2 (amended): the windowed wallet fetch deduplicates across the whole
call: the DedupKey set `processed_transactions` is scoped to the entire
`_get_wallet_transactions_chunked` call, so each distinct DedupKey is
emitted exactly once no matter how the chunks place duplicates, and the
output size equals the number of distinct DedupKeys across all chunks.  The
cursor-paginated `_fetch_paginated_data`, by contrast, performs no
deduplication and returns the concatenation of the pages. -/
theorem c2_windowed_dedup (chunks : List (List Transaction)) :
    ((chunkedCollect [] chunks).map txKey).Nodup
    ∧ (∀ k, k ∈ (chunkedCollect [] chunks).map txKey ↔
        k ∈ chunks.flatten.map txKey)
    ∧ (chunkedCollect [] chunks).length
        = (chunks.flatten.map txKey).toFinset.card := by
  obtain ⟨h1, h2⟩ := chunkedCollect_spec chunks []
  have hiff : ∀ k, k ∈ (chunkedCollect [] chunks).map txKey ↔
      k ∈ chunks.flatten.map txKey := by
    intro k
    rw [h1 k]
    simp
  refine ⟨h2, hiff, ?_⟩
  have hl : (chunkedCollect [] chunks).length
      = ((chunkedCollect [] chunks).map txKey).length :=
    (List.length_map _ _).symm
  rw [hl, ← List.toFinset_card_of_nodup h2]
  congr 1
  apply Finset.ext
  intro k
  rw [List.mem_toFinset, List.mem_toFinset]
  exact hiff k

/-- A stopping page `k` steps ahead bounds the number of requests by
`k + 1`, whatever the fuel. -/
theorem fetchRequests_le (k : Nat) :
    ∀ (pages : Nat → CursorPage) n fuel, pageStops (pages (n + k)) = true →
      fetchRequests pages n fuel ≤ k + 1 := by
  induction k with
  | zero =>
    intro pages n fuel hstop
    cases fuel with
    | zero => simp [fetchRequests]
    | succ m =>
      simp only [Nat.add_zero] at hstop
      have hcond : ¬ ((pages n).records.isEmpty = false
          ∧ (pages n).more = true
          ∧ cursorTruthy (pages n).next_cursor = true) := by
        rintro ⟨h1, h2, h3⟩
        simp [pageStops, h1, h2, h3] at hstop
      simp only [fetchRequests, if_neg hcond]
      omega
  | succ j ih =>
    intro pages n fuel hstop
    cases fuel with
    | zero => simp [fetchRequests]
    | succ m =>
      have hstop' : pageStops (pages (n + 1 + j)) = true := by
        rw [show n + 1 + j = n + (j + 1) by omega]
        exact hstop
      by_cases hcond : (pages n).records.isEmpty = false
          ∧ (pages n).more = true
          ∧ cursorTruthy (pages n).next_cursor = true
      · simp only [fetchRequests, if_pos hcond]
        have := ih pages (n + 1) m hstop'
        omega
      · simp only [fetchRequests, if_neg hcond]
        omega

/-- With a stopping page `k` steps ahead, both the accumulated records and
the request count are independent of the fuel once it exceeds `k`. -/
theorem fetchLoop_stable (k : Nat) :
    ∀ (pages : Nat → CursorPage) n a b, pageStops (pages (n + k)) = true →
      k + 1 ≤ a → k + 1 ≤ b →
      fetchLoop pages n a = fetchLoop pages n b
      ∧ fetchRequests pages n a = fetchRequests pages n b := by
  induction k with
  | zero =>
    intro pages n a b hstop ha hb
    obtain ⟨a', rfl⟩ : ∃ a', a = a' + 1 := ⟨a - 1, by omega⟩
    obtain ⟨b', rfl⟩ : ∃ b', b = b' + 1 := ⟨b - 1, by omega⟩
    simp only [Nat.add_zero] at hstop
    by_cases hemp : (pages n).records.isEmpty
    · constructor
      · simp only [fetchLoop, if_pos hemp]
      · have hcond : ¬ ((pages n).records.isEmpty = false
            ∧ (pages n).more = true
            ∧ cursorTruthy (pages n).next_cursor = true) := by
          rintro ⟨h1, _, _⟩
          rw [hemp] at h1
          exact Bool.true_eq_false.mp h1
        simp only [fetchRequests, if_neg hcond]
    · have hmc : ¬ ((pages n).more = true
          ∧ cursorTruthy (pages n).next_cursor = true) := by
        rintro ⟨h2, h3⟩
        simp [pageStops, hemp, h2, h3] at hstop
      have hcond : ¬ ((pages n).records.isEmpty = false
          ∧ (pages n).more = true
          ∧ cursorTruthy (pages n).next_cursor = true) := by
        rintro ⟨_, h2, h3⟩
        exact hmc ⟨h2, h3⟩
      constructor
      · simp only [fetchLoop, if_neg hemp, if_neg hmc]
      · simp only [fetchRequests, if_neg hcond]
  | succ j ih =>
    intro pages n a b hstop ha hb
    obtain ⟨a', rfl⟩ : ∃ a', a = a' + 1 := ⟨a - 1, by omega⟩
    obtain ⟨b', rfl⟩ : ∃ b', b = b' + 1 := ⟨b - 1, by omega⟩
    have hstop' : pageStops (pages (n + 1 + j)) = true := by
      rw [show n + 1 + j = n + (j + 1) by omega]
      exact hstop
    by_cases hemp : (pages n).records.isEmpty
    · constructor
      · simp only [fetchLoop, if_pos hemp]
      · have hcond : ¬ ((pages n).records.isEmpty = false
            ∧ (pages n).more = true
            ∧ cursorTruthy (pages n).next_cursor = true) := by
          rintro ⟨h1, _, _⟩
          rw [hemp] at h1
          exact Bool.true_eq_false.mp h1
        simp only [fetchRequests, if_neg hcond]
    · by_cases hmc : (pages n).more = true
          ∧ cursorTruthy (pages n).next_cursor = true
      · have hcond : (pages n).records.isEmpty = false
            ∧ (pages n).more = true
            ∧ cursorTruthy (pages n).next_cursor = true :=
          ⟨by simp [hemp], hmc.1, hmc.2⟩
        obtain ⟨ihl, ihr⟩ := ih pages (n + 1) a' b' hstop'
          (by omega) (by omega)
        constructor
        · simp only [fetchLoop, if_neg hemp, if_pos hmc, ihl]
        · simp only [fetchRequests, if_pos hcond, ihr]
      · have hcond : ¬ ((pages n).records.isEmpty = false
            ∧ (pages n).more = true
            ∧ cursorTruthy (pages n).next_cursor = true) := by
          rintro ⟨_, h2, h3⟩
          exact hmc ⟨h2, h3⟩
        constructor
        · simp only [fetchLoop, if_neg hemp, if_neg hmc]
        · simp only [fetchRequests, if_neg hcond]

/-- C6: when some page `k` of the response stream yields zero records,
signals no more pages, or returns no (truthy) continuation cursor, the
cursor-pagination loop of `_fetch_paginated_data` terminates: it makes at
most `k + 1` requests with any fuel, its result and request count are
already final at fuel `k + 1`, and a page yielding zero records stops the
loop immediately — returning what was accumulated and costing exactly one
request — even when a continuation cursor is present. -/
theorem c6_cursor_terminates (pages : Nat → CursorPage) (k : Nat)
    (hstop : pageStops (pages k) = true) :
    (∀ fuel, fetchRequests pages 0 fuel ≤ k + 1)
    ∧ (∀ fuel, k + 1 ≤ fuel →
        fetchLoop pages 0 fuel = fetchLoop pages 0 (k + 1)
        ∧ fetchRequests pages 0 fuel = fetchRequests pages 0 (k + 1))
    ∧ (∀ n fuel, (pages n).records = [] →
        fetchLoop pages n (fuel + 1) = []
        ∧ fetchRequests pages n (fuel + 1) = 1) := by
  have hstop0 : pageStops (pages (0 + k)) = true := by
    rwa [Nat.zero_add]
  refine ⟨?_, ?_, ?_⟩
  · intro fuel
    exact fetchRequests_le k pages 0 fuel hstop0
  · intro fuel hf
    exact fetchLoop_stable k pages 0 fuel (k + 1) hstop0 hf le_rfl
  · intro n fuel hrec
    have hemp : (pages n).records.isEmpty = true := by
      rw [hrec]
      rfl
    constructor
    · simp only [fetchLoop, if_pos hemp]
    · have hcond : ¬ ((pages n).records.isEmpty = false
          ∧ (pages n).more = true
          ∧ cursorTruthy (pages n).next_cursor = true) := by
        rintro ⟨h1, _, _⟩
        rw [hemp] at h1
        exact Bool.true_eq_false.mp h1
      simp only [fetchRequests, if_neg hcond]

/-- Witness for `c6_cursor_terminates` on the stream whose second page is
empty but still carries a cursor and a `more` signal. -/
theorem c6_cursor_terminates_witness :
    pageStops (pagesStopEx 1) = true
    ∧ fetchRequests pagesStopEx 0 10 ≤ 2
    ∧ fetchLoop pagesStopEx 0 10 = fetchLoop pagesStopEx 0 2
    ∧ fetchLoop pagesStopEx 1 5 = [] :=
  ⟨by decide,
   (c6_cursor_terminates pagesStopEx 1 (by decide)).1 10,
   ((c6_cursor_terminates pagesStopEx 1 (by decide)).2.1 10 (by omega)).1,
   ((c6_cursor_terminates pagesStopEx 1 (by decide)).2.2 1 4 (by decide)).1⟩

/-- C10: the windowed wallet fetch never returns an empty collection —
`get_wallet_transactions` returns `None` when an exception occurs, returns
`None` when every window yields zero transactions, and never returns
`some []`, so the two cases are indistinguishable by the return value
alone. -/
theorem c10_none_ambiguity :
    (∀ e, getWalletTransactions (.error e) = none)
    ∧ (∀ chunks, (∀ c ∈ chunks, c = []) →
        getWalletTransactions (.ok chunks) = none)
    ∧ (∀ outcome, getWalletTransactions outcome ≠ some []) := by
  refine ⟨fun e => rfl, ?_, ?_⟩
  · intro chunks hall
    have h := chunkedCollect_all_empty chunks [] hall
    simp [getWalletTransactions, getWalletTransactionsChunked, h]
  · intro outcome
    match outcome with
    | .error e => simp [getWalletTransactions]
    | .ok chunks =>
      simp only [getWalletTransactions, getWalletTransactionsChunked]
      split
      · simp
      · rename_i hne
        intro hcontra
        exact hne (Option.some.injEq _ _ ▸ hcontra)

/-- Witness for `c10_none_ambiguity`: an all-empty fetch and a failed fetch
both return `None`. -/
theorem c10_none_ambiguity_witness :
    getWalletTransactions (.ok [[], []]) = none
    ∧ getWalletTransactions (.error "network error") = none :=
  ⟨c10_none_ambiguity.2.1 [[], []] (by decide),
   c10_none_ambiguity.1 "network error"⟩

end Omni
